import Mathlib

/-!
Verification of the CLIProxy gateway against its specification.

The Go sources are shallowly embedded: pure functions become Lean
functions, JSON bodies become an inductive `Json` value, HTTP requests
become a record of the header and query values the code reads, and the
`gjson`/`sjson` path operations become `jget`/`jset`/`jdel` on `Json`.
-/

namespace CLIProxy

/-- JSON values.  Objects are association lists of fields in document
order; `gjson` resolves a key to its first occurrence and `sjson`
replaces that occurrence, which the lemmas below mirror. -/
inductive Json where
  | null
  | bool (b : Bool)
  | num (n : Int)
  | str (s : String)
  | arr (elems : List Json)
  | obj (fields : List (String × Json))
deriving Repr, Inhabited

/-- First binding of key `k` in an object's field list (gjson's key lookup). -/
def lookupField : List (String × Json) → String → Option Json
  | [], _ => none
  | (k', v) :: rest, k => if k' = k then some v else lookupField rest k

/-- Replace the first binding of `k`, or append one (sjson's key write). -/
def replaceOrAppend : List (String × Json) → String → Json → List (String × Json)
  | [], k, v => [(k, v)]
  | (k', v') :: rest, k, v =>
    if k' = k then (k, v) :: rest else (k', v') :: replaceOrAppend rest k v

/-- Drop every binding of `k` (sjson's key delete). -/
def removeField (fs : List (String × Json)) (k : String) : List (String × Json) :=
  fs.filter (fun kv => kv.1 ≠ k)

/-- `gjson.GetBytes` restricted to dotted object paths: resolve each
path component as an object key in turn. -/
def jget : Json → List String → Option Json
  | j, [] => some j
  | .obj fs, k :: ps =>
    match lookupField fs k with
    | some v => jget v ps
    | none => none
  | _, _ :: _ => none

/-- The child of `j` at key `k`, or `null` when `j` is not an object or
lacks the key; used by `jset` to descend. -/
def jchild (j : Json) (k : String) : Json :=
  match j with
  | .obj fs => (lookupField fs k).getD .null
  | _ => .null

/-- Object fields of `j`, or `[]` when `j` is not an object. -/
def jfields (j : Json) : List (String × Json) :=
  match j with
  | .obj fs => fs
  | _ => []

/-- `sjson.SetBytes` restricted to dotted object paths: write `v` at the
path, replacing the first binding of each component and materialising
missing or non-object intermediates as objects. -/
def jset : List String → Json → Json → Json
  | [], _, v => v
  | k :: ps, j, v => .obj (replaceOrAppend (jfields j) k (jset ps (jchild j k) v))

/-- `sjson.DeleteBytes` restricted to dotted object paths: remove the
final key when the whole path resolves, and leave the value unchanged
otherwise. -/
def jdel : List String → Json → Json
  | [], j => j
  | k :: ps, j =>
    match j with
    | .obj fs =>
      match lookupField fs k with
      | some v =>
        if ps.isEmpty then .obj (removeField fs k)
        else .obj (replaceOrAppend fs k (jdel ps v))
      | none => j
    | _ => j

/-! ### Amp response rewriter

Embeds `ResponseRewriter.rewriteModelInResponse` and
`ResponseRewriter.rewriteStreamChunk` from
`internal/donation/middleware.go` (package `amp`). -/

/-- `modelFieldPaths` from the source: all JSON paths where a model name
may appear. -/
def modelFieldPaths : List (List String) :=
  [["model"], ["modelVersion"], ["response", "modelVersion"], ["message", "model"]]

/-- One iteration of the rewrite loop: set the path to the original
model when `gjson` reports it exists, otherwise leave the body alone. -/
def rewriteStep (v : Json) (d : Json) (p : List String) : Json :=
  if (jget d p).isSome then jset p d v else d

/-- `rewriteModelInResponse`: replace the model name at each of the
known paths that exists; an empty original model disables the rewrite. -/
def rewriteModelInResponse (originalModel : String) (data : Json) : Json :=
  if originalModel = "" then data
  else modelFieldPaths.foldl (rewriteStep (.str originalModel)) data

/-- One line of an SSE chunk after splitting on newlines.  `dataObj j`
stands for a line of the form `data: {…}` whose payload is the JSON
value `j` (prefix `data: ` present and payload starting with a brace —
the branch the Go code rewrites); `passthrough s` stands for any other
line, which the Go code forwards byte-for-byte. -/
inductive SSELine where
  | dataObj (j : Json)
  | passthrough (s : String)
deriving Repr

/-- `rewriteStreamChunk`: per line of the chunk, rewrite the payload of
`data: {…}` lines and pass everything else through. -/
def rewriteStreamChunk (originalModel : String) (chunk : List SSELine) : List SSELine :=
  if originalModel = "" then chunk
  else chunk.map fun line =>
    match line with
    | .dataObj j => .dataObj (rewriteModelInResponse originalModel j)
    | .passthrough s => .passthrough s

/-! ### config-api-key access provider

Embeds `newProvider`, `provider.Authenticate` and `extractBearerToken`
from the config-access package (src/unnamed/part_001).  `Header.Get`
and `Query().Get` return `""` for an absent header or parameter, so a
request is embedded as the five string values the code reads. -/

/-- Modelled from the spec: `sdkconfig.DefaultAccessProviderName` is
declared outside src/ (only referenced here); the spec names the
built-in provider type `config-api-key`, and only the constant's
identity matters to the theorems below. -/
def defaultAccessProviderName : String := "config-api-key"

/-- The five credential carriers the provider reads from a request. -/
structure HTTPRequest where
  authorization : String
  xGoogApiKey : String
  xApiKey : String
  queryKey : String
  queryAuthToken : String
deriving Repr

/-- Outcome of `provider.Authenticate`: the `*sdkaccess.Result` on
success, or one of the three sentinel errors. -/
inductive AuthOutcome where
  | ok (providerName principal source : String)
  | errNotHandled
  | errNoCredentials
  | errInvalidCredential
deriving Repr, DecidableEq

structure ConfigAPIKeyProvider where
  name : String
  keys : List String
deriving Repr

/-- `newProvider`: default the name, and keep only non-empty keys. -/
def newProvider (cfgName : String) (cfgAPIKeys : List String) : ConfigAPIKeyProvider :=
  { name := if cfgName = "" then defaultAccessProviderName else cfgName
    keys := cfgAPIKeys.filter (fun k => k ≠ "") }

def ConfigAPIKeyProvider.identifier (p : ConfigAPIKeyProvider) : String :=
  if p.name = "" then defaultAccessProviderName else p.name

/-- ASCII lower-casing of one character; the header tokens and model
ids the code compares are ASCII, where this agrees with Go's
`strings.ToLower`. -/
def charLower (c : Char) : Char :=
  if 'A' ≤ c ∧ c ≤ 'Z' then Char.ofNat (c.toNat + 32) else c

/-- `strings.ToLower` on ASCII text. -/
def asciiLower (s : String) : String := ⟨s.data.map charLower⟩

/-- The whitespace characters `strings.TrimSpace` strips on ASCII text. -/
def isSpaceChar (c : Char) : Bool :=
  c = ' ' ∨ c = '\t' ∨ c = '\n' ∨ c = '\r'

/-- `strings.TrimSpace` on ASCII text. -/
def trimString (s : String) : String :=
  ⟨((s.data.dropWhile isSpaceChar).reverse.dropWhile isSpaceChar).reverse⟩

/-- Split a character list at its first space: the text before it and
the remainder after it, or `none` when there is no space. -/
def breakAtSpace : List Char → Option (List Char × List Char)
  | [] => none
  | c :: cs =>
    if c = ' ' then some ([], cs)
    else match breakAtSpace cs with
      | some (a, b) => some (c :: a, b)
      | none => none

/-- `strings.SplitN(s, " ", 2)`: the text before the first space and
the remainder, or the whole string when it holds no space. -/
def splitN2 (s : String) : List String :=
  match breakAtSpace s.data with
  | none => [s]
  | some (a, b) => [⟨a⟩, ⟨b⟩]

/-- `extractBearerToken`: strip a case-insensitive `Bearer ` prefix and
trim the rest; a header without one is returned whole. -/
def extractBearerToken (header : String) : String :=
  if header = "" then ""
  else
    match splitN2 header with
    | [p0, p1] => if asciiLower p0 = "bearer" then trimString p1 else header
    | _ => header

/-- The candidate `(value, source)` pairs of `Authenticate`, in the
order the loop checks them. -/
def candidates (r : HTTPRequest) : List (String × String) :=
  [(extractBearerToken r.authorization, "authorization"),
   (r.xGoogApiKey, "x-goog-api-key"),
   (r.xApiKey, "x-api-key"),
   (r.queryKey, "query-key"),
   (r.queryAuthToken, "query-auth-token")]

/-- `provider.Authenticate`: reject with `ErrNotHandled` on an empty
key set, `ErrNoCredentials` when all five carriers are absent, then
scan the candidates in source order, skipping empty values, for the
first one among the configured keys. -/
def ConfigAPIKeyProvider.authenticate (p : ConfigAPIKeyProvider) (r : HTTPRequest) : AuthOutcome :=
  if p.keys.isEmpty then .errNotHandled
  else if r.authorization = "" ∧ r.xGoogApiKey = "" ∧ r.xApiKey = ""
      ∧ r.queryKey = "" ∧ r.queryAuthToken = "" then .errNoCredentials
  else
    match (candidates r).find? (fun c => c.1 ≠ "" && p.keys.contains c.1) with
    | some c => .ok p.identifier c.1 c.2
    | none => .errInvalidCredential

/-! ### Thinking normalizer: budget → effort projection -/

/-- First level of an ascending level table whose budget reaches `b`,
saturating at the right-most (highest) level. -/
def pickLevel : List (String × Int) → Int → Option String
  | [], _ => none
  | [(n, _)], _ => some n
  | (n, bud) :: l :: rest, b => if b ≤ bud then some n else pickLevel (l :: rest) b

/-- Modelled from the spec: `util.ThinkingBudgetToEffort` is code of
this repository outside src/ (only its tests are under src/).  The
spec's projection of a numeric budget onto a levels-style model:
negative maps to `auto` (the dynamic budget `-1`) or is dropped, and
otherwise the result is the smallest level of the model's ordered level
table whose budget is `≥` the input, saturating at the right-most
level. -/
def thinkingBudgetToEffort (levels : List (String × Int)) (b : Int) : Option String :=
  if b < 0 then (if b = -1 then some "auto" else none)
  else pickLevel levels b

/-- The spec's example level table, used as a concrete witness table. -/
def exampleLevels : List (String × Int) :=
  [("minimal", 512), ("low", 1024), ("medium", 8192), ("high", 24576)]

/-! ### Thinking normalizer: effort names on level dialects -/

/-- The one thinking validation error the spec names. -/
inductive ThinkingError where
  | thinkingInvalid
deriving Repr, DecidableEq

/-- Modelled from the spec: the effort handling of
`executor.ApplyReasoningEffortMetadata` / `ValidateThinkingConfig` and
`util.NormalizeReasoningEffortLevel` is code of this repository outside
src/ (only its tests are under src/).  Per the spec: when the target is
an OpenAI-compatible upstream with an unknown model (`allowCompat`),
the effort is passed through verbatim without validation; for a
strictly typed upstream an effort name outside the model's level table
is a `thinking_invalid` error, and a valid name is emitted
lowercased. -/
def projectEffort (allowCompat : Bool) (levelNames : List String) (effort : String) :
    Except ThinkingError String :=
  if allowCompat then .ok effort
  else
    let e := asciiLower (trimString effort)
    if levelNames.contains e then .ok e else .error .thinkingInvalid

/-! ### Gemini 3 thinking levels -/

/-- Model-id normalisation used by the Gemini 3 detectors: lower-case
and map underscores to hyphens. -/
def normalizeModelId (s : String) : String :=
  ⟨s.data.map (fun c => let l := charLower c; if l = '_' then '-' else l)⟩

/-- Does the second list start with the first? -/
def leadsWith : List Char → List Char → Bool
  | [], _ => true
  | _ :: _, [] => false
  | p :: ps, c :: cs => p = c && leadsWith ps cs

/-- Modelled from the spec: `util.IsGemini3Model` is outside src/ (only
its tests are); a model is Gemini 3 when its normalised id starts with
`gemini-3`. -/
def isGemini3Model (m : String) : Bool :=
  leadsWith "gemini-3".data (normalizeModelId m).data

/-- Modelled from the spec: `util.IsGemini3ProModel` (outside src/). -/
def isGemini3ProModel (m : String) : Bool :=
  leadsWith "gemini-3-pro".data (normalizeModelId m).data

/-- Modelled from the spec: `util.IsGemini3FlashModel` (outside src/). -/
def isGemini3FlashModel (m : String) : Bool :=
  leadsWith "gemini-3-flash".data (normalizeModelId m).data

/-- The levels Gemini 3 Pro accepts. -/
def gemini3ProLevels : List String := ["low", "high"]

/-- The levels Gemini 3 Flash accepts. -/
def gemini3FlashLevels : List String := ["minimal", "low", "medium", "high"]

/-- Modelled from the spec: `util.ThinkingBudgetToGemini3Level`
(outside src/, pinned by its tests under src/): a numeric budget is
converted to a named level by model-specific thresholds; a dynamic
(negative) budget means full thinking (`high`), and non-Gemini-3
models are not converted. -/
def thinkingBudgetToGemini3Level (m : String) (b : Int) : Option String :=
  if isGemini3ProModel m then
    some (if b < 0 then "high" else if b ≤ 8192 then "low" else "high")
  else if isGemini3FlashModel m then
    some (if b < 0 then "high"
      else if b ≤ 512 then "minimal"
      else if b ≤ 1024 then "low"
      else if b ≤ 8192 then "medium"
      else "high")
  else none

/-- Modelled from the spec: `util.ValidateGemini3ThinkingLevel`
(outside src/, pinned by its tests under src/): lowercase the supplied
level and accept exactly the model family's level set. -/
def validateGemini3ThinkingLevel (m lvl : String) : Option String :=
  let l := asciiLower lvl
  if isGemini3ProModel m then
    (if gemini3ProLevels.contains l then some l else none)
  else if isGemini3FlashModel m then
    (if gemini3FlashLevels.contains l then some l else none)
  else none

/-- `generationConfig.thinkingConfig.thinkingBudget`. -/
def geminiBudgetPath : List String := ["generationConfig", "thinkingConfig", "thinkingBudget"]

/-- `generationConfig.thinkingConfig.thinkingLevel`. -/
def geminiLevelPath : List String := ["generationConfig", "thinkingConfig", "thinkingLevel"]

/-- Modelled from the spec: the Gemini-3 branch of
`util.NormalizeGeminiThinkingBudget` (outside src/, pinned by its
tests under src/): for a Gemini 3 model a numeric `thinkingBudget` in
the body is converted to a named `thinkingLevel` and the budget field
is removed; other models keep their numeric budget. -/
def normalizeGeminiThinkingBudget (m : String) (body : Json) : Json :=
  if isGemini3Model m then
    match jget body geminiBudgetPath with
    | some (.num b) =>
      match thinkingBudgetToGemini3Level m b with
      | some lvl => jdel geminiBudgetPath (jset geminiLevelPath body (.str lvl))
      | none => body
    | _ => body
  else body

/-! ### Composite translation edge (OpenAI Responses → Antigravity) -/

/-- `bytes.Clone` on an immutable byte value. -/
def bytesClone (b : List UInt8) : List UInt8 := b

/-- `ConvertOpenAIResponsesRequestToAntigravity` from
`internal/translator/antigravity/openai/responses`: clone the input,
apply the OpenAI-Responses→Gemini request translator, then the
Gemini→Antigravity request translator.  The two component translators
live outside src/ and are taken as function parameters. -/
def ConvertOpenAIResponsesRequestToAntigravity
    (convertOpenAIResponsesRequestToGemini : String → List UInt8 → Bool → List UInt8)
    (convertGeminiRequestToAntigravity : String → List UInt8 → Bool → List UInt8)
    (modelName : String) (inputRawJSON : List UInt8) (stream : Bool) : List UInt8 :=
  let rawJSON := bytesClone inputRawJSON
  let rawJSON := convertOpenAIResponsesRequestToGemini modelName rawJSON stream
  convertGeminiRequestToAntigravity modelName rawJSON stream

/-! ### Legacy configuration migration -/

/-- One `openai-compatibility` provider block of the configuration
file: new-style `api-key-entries` (by their `api-key` values) next to
the legacy nested `api-keys` string list. -/
structure OpenAICompatEntry where
  name : String
  baseUrl : String
  apiKeyEntries : List String
  legacyAPIKeys : List String
deriving Repr, DecidableEq

/-- The `ampcode` block; `restrictManagementToLocalhost = none` means
the block does not set the field. -/
structure AmpCodeConfig where
  upstreamUrl : String
  upstreamApiKey : String
  restrictManagementToLocalhost : Option Bool
deriving Repr, DecidableEq

/-- The configuration file fields touched by the legacy migration:
new-style fields next to the legacy `generative-language-api-key`,
`amp-upstream-url` and `amp-restrict-management-to-localhost` names
(`none` / `[]` when absent from the file). -/
structure ConfigFile where
  geminiApiKey : List String
  generativeLanguageApiKey : List String
  openaiCompatibility : List OpenAICompatEntry
  ampcode : AmpCodeConfig
  ampUpstreamUrl : Option String
  ampRestrictManagementToLocalhost : Option Bool
deriving Repr, DecidableEq

/-- Append the keys of the second list that the first does not already
hold, in order. -/
def addUnique (acc ks : List String) : List String :=
  ks.foldl (fun acc k => if k ∈ acc then acc else acc ++ [k]) acc

/-- Merge a provider's legacy nested `api-keys` into its
`api-key-entries`, deduplicating, and drop the legacy list. -/
def migrateOpenAICompatEntry (e : OpenAICompatEntry) : OpenAICompatEntry :=
  { e with apiKeyEntries := addUnique e.apiKeyEntries e.legacyAPIKeys, legacyAPIKeys := [] }

/-- Modelled from the spec: the migration half of `config.LoadConfig`
is code of this repository outside src/ (only its test is under src/).
Per the spec, the legacy field names are migrated in-place on load and
removed from the file: legacy Gemini keys join `gemini-api-key`
(deduplicated), legacy nested `api-keys` join each provider's
`api-key-entries` (deduplicated), and the legacy amp fields populate
the `ampcode` block when it does not set them itself. -/
def migrateConfigFile (f : ConfigFile) : ConfigFile :=
  { geminiApiKey := addUnique f.geminiApiKey f.generativeLanguageApiKey
    generativeLanguageApiKey := []
    openaiCompatibility := f.openaiCompatibility.map migrateOpenAICompatEntry
    ampcode :=
      { upstreamUrl :=
          if f.ampcode.upstreamUrl = "" then f.ampUpstreamUrl.getD "" else f.ampcode.upstreamUrl
        upstreamApiKey := f.ampcode.upstreamApiKey
        restrictManagementToLocalhost :=
          match f.ampcode.restrictManagementToLocalhost with
          | some v => some v
          | none => f.ampRestrictManagementToLocalhost }
    ampUpstreamUrl := none
    ampRestrictManagementToLocalhost := none }

/-- The mixed legacy/new configuration of the migration test, used as
the concrete witness input. -/
def exampleLegacyFile : ConfigFile :=
  { geminiApiKey := ["new-gemini"]
    generativeLanguageApiKey := ["new-gemini", "legacy-gemini-only"]
    openaiCompatibility :=
      [⟨"mixed-provider", "https://mixed.example.com", ["new-entry"], ["legacy-entry", "new-entry"]⟩]
    ampcode := ⟨"", "", none⟩
    ampUpstreamUrl := some "https://amp.example.com"
    ampRestrictManagementToLocalhost := some false }

/-! ### Access-provider reconciliation

Embeds `ReconcileProviders`, `providerConfigEqual`, `stringSetEqual`,
`providerIdentifier`, `accessProviderMap` and `collectProviderEntries`
from the access package (src/unnamed/part_002). -/

/-- `strings.EqualFold` on ASCII text. -/
def eqFold (a b : String) : Bool := asciiLower a = asciiLower b

/-- `sdkConfig.AccessProviderTypeConfigAPIKey`: the spec's built-in
provider type name. -/
def accessProviderTypeConfigAPIKey : String := "config-api-key"

/-- An access-provider configuration entry `{name, type, sdk,
api-keys, config}`.  The Go `Config map[string]any` is embedded as a
string association list with unique keys. -/
structure AccessProvider where
  name : String
  type : String
  sdk : String
  apiKeys : List String
  config : List (String × String)
deriving Repr, DecidableEq

/-- The slice of the configuration that reconciliation reads. -/
structure AccessConfig where
  providers : List AccessProvider
deriving Repr, DecidableEq

structure Config where
  apiKeys : List String
  access : AccessConfig
deriving Repr, DecidableEq

/-- A provider object: either one that already existed before the
reload (identified by its identifier) or one freshly constructed by
`BuildProvider` from a configuration entry.  Object identity —
pointer equality in Go — is value identity here. -/
inductive ProviderObj where
  | preexisting (id : String)
  | built (cfg : AccessProvider)
deriving Repr, DecidableEq

/-- `providerIdentifier`: the trimmed name, else the trimmed type with
`config-api-key` replaced by the default inline name. -/
def providerIdentifier (p : AccessProvider) : String :=
  if trimString p.name ≠ "" then trimString p.name
  else
    let t := trimString p.type
    if t = "" then ""
    else if eqFold t accessProviderTypeConfigAPIKey then defaultAccessProviderName
    else t

def ProviderObj.identifier : ProviderObj → String
  | .preexisting id => id
  | .built cfg => providerIdentifier cfg

/-- Insert into a string-keyed association map, overwriting the
existing binding (Go map assignment). -/
def assocInsert {α : Type} : List (String × α) → String → α → List (String × α)
  | [], k, v => [(k, v)]
  | (k', v') :: rest, k, v =>
    if k' = k then (k, v) :: rest else (k', v') :: assocInsert rest k v

/-- Go map lookup. -/
def assocFind {α : Type} : List (String × α) → String → Option α
  | [], _ => none
  | (k', v) :: rest, k => if k' = k then some v else assocFind rest k

/-- The failure modes of `BuildProvider` from the sdk access package:
a nil provider config, a type with no registered factory, or a factory
error (whose own content the Go code only wraps into the message). -/
inductive BuildError where
  | nilProviderConfig
  | typeNotRegistered (typ : String)
  | factoryFailed (name : String)
deriving Repr, DecidableEq

/-- A provider factory as registered with `RegisterProvider`. -/
abbrev ProviderFactory := AccessProvider → Except BuildError ProviderObj

/-- `BuildProvider` from the sdk access package (embedded in
src/README.md): reject a nil config, look the type up in the factory
registry — by the exact `cfg.Type` string, neither trimmed nor
case-folded — and run the factory, wrapping its failure.  The
registry, a process-wide map in Go, is passed explicitly. -/
def buildProvider (registry : List (String × ProviderFactory))
    (cfg : Option AccessProvider) : Except BuildError ProviderObj :=
  match cfg with
  | none => .error .nilProviderConfig
  | some cfg =>
    match assocFind registry cfg.type with
    | none => .error (.typeNotRegistered cfg.type)
    | some factory =>
      match factory cfg with
      | .error _ => .error (.factoryFailed cfg.name)
      | .ok provider => .ok provider

/-- The registry the program runs with: `Register` (the config-access
package, src/unnamed/part_001) registers exactly the `config-api-key`
type, and its factory `newProvider` never returns an error. -/
def defaultRegistry : List (String × ProviderFactory) :=
  [(accessProviderTypeConfigAPIKey, fun cfg => .ok (.built cfg))]

/-- Modelled from the spec: `sdkConfig.MakeInlineAPIKeyProvider`
(outside src/) wraps the top-level inline `api-keys` list in a
`config-api-key` provider entry, or yields nothing when the list is
empty. -/
def makeInlineAPIKeyProvider (keys : List String) : Option AccessProvider :=
  if keys.isEmpty then none
  else some { name := "", type := accessProviderTypeConfigAPIKey, sdk := "", apiKeys := keys, config := [] }


/-- `stringSetEqual`: multiset equality of two string lists via the
count map the Go code builds. -/
def bumpCount : List (String × Nat) → String → List (String × Nat)
  | [], v => [(v, 1)]
  | (k, n) :: rest, v =>
    if k = v then (k, n + 1) :: rest else (k, n) :: bumpCount rest v

/-- Consume one occurrence of `v` from the count map; `none` when it
holds no occurrence (the Go loop's early `false`). -/
def takeCount : List (String × Nat) → String → Option (List (String × Nat))
  | [], _ => none
  | (k, n) :: rest, v =>
    if k = v then (if n = 1 then some rest else some ((k, n - 1) :: rest))
    else (takeCount rest v).map (fun r => (k, n) :: r)

def consumeCounts (counts : List (String × Nat)) : List String → Option (List (String × Nat))
  | [] => some counts
  | v :: vs =>
    match takeCount counts v with
    | some c' => consumeCounts c' vs
    | none => none

def stringSetEqual (a b : List String) : Bool :=
  if a.length ≠ b.length then false
  else if a.length = 0 then true
  else
    match consumeCounts (a.foldl bumpCount []) b with
    | some rest => rest.isEmpty
    | none => false

/-- `reflect.DeepEqual` on two Go `map[string]any` values whose keys
are unique: same size and pointwise-equal bindings. -/
def mapDeepEqual (a b : List (String × String)) : Bool :=
  a.length = b.length
  && a.all (fun kv => assocFind b kv.1 = some kv.2)
  && b.all (fun kv => assocFind a kv.1 = some kv.2)

/-- `providerConfigEqual`: case-insensitive trimmed type, trimmed sdk,
api-keys as multisets, config as a map. -/
def providerConfigEqual (a b : AccessProvider) : Bool :=
  eqFold (trimString a.type) (trimString b.type)
  && (trimString a.sdk = trimString b.sdk)
  && stringSetEqual a.apiKeys b.apiKeys
  && (a.config.length = b.config.length)
  && (a.config.length = 0 || mapDeepEqual a.config b.config)

/-- `accessProviderMap`: identifier-keyed map of the configured
providers, falling back to the inline provider when none are
configured and inline keys exist. -/
def accessProviderMap (cfg : Option Config) : List (String × AccessProvider) :=
  match cfg with
  | none => []
  | some cfg =>
    let base := cfg.access.providers.foldl
      (fun m p =>
        if p.type = "" then m
        else if providerIdentifier p = "" then m
        else assocInsert m (providerIdentifier p) p) []
    if base.isEmpty && !cfg.apiKeys.isEmpty then
      match makeInlineAPIKeyProvider cfg.apiKeys with
      | some inl =>
        if providerIdentifier inl = "" then base
        else assocInsert base (providerIdentifier inl) inl
      | none => base
    else base

/-- `collectProviderEntries`: the configured provider entries in
order, falling back to the inline provider. -/
def collectProviderEntries (cfg : Config) : List AccessProvider :=
  let entries := cfg.access.providers.filter
    (fun p => p.type != "" && providerIdentifier p != "")
  if entries.isEmpty && !cfg.apiKeys.isEmpty then
    match makeInlineAPIKeyProvider cfg.apiKeys with
    | some inl => [inl]
    | none => entries
  else entries

/-- The inline provider's identifier is excluded from the reported
diff lists. -/
def isInlineProvider (id : String) : Bool := eqFold id defaultAccessProviderName

def appendChange (id : String) (l : List String) : List String :=
  if isInlineProvider id then l else l ++ [id]

/-- The loop's reuse decision for one configured entry: never for a
`config-api-key`-typed entry (`forceRebuild`), otherwise the existing
provider object when the previous configuration under the same
identifier compares equal under `providerConfigEqual`.  The Go
`isAliased` guard compares pointers of the old and new configuration
entries; after a reload these are distinct values, so it is never
taken here. -/
def reuseDecision (oldM : List (String × AccessProvider))
    (existM : List (String × ProviderObj)) (p : AccessProvider) : Option ProviderObj :=
  match assocFind oldM (providerIdentifier p) with
  | some oldCfgProvider =>
    if eqFold (trimString p.type) accessProviderTypeConfigAPIKey = false
        ∧ providerConfigEqual oldCfgProvider p = true then
      assocFind existM (providerIdentifier p)
    else none
  | none => none

/-- The provider object one loop iteration appends when no build
fails: the reused existing object, or the fresh object the registered
`config-api-key`-style factory yields for the entry; entries whose
identifier is empty are skipped.  This is the success-path
specification against which the error-propagating loop is proved. -/
def entryOutput (oldM : List (String × AccessProvider))
    (existM : List (String × ProviderObj)) (p : AccessProvider) : Option ProviderObj :=
  if providerIdentifier p = "" then none
  else some ((reuseDecision oldM existM p).getD (.built p))

/-- The identifier one loop iteration adds to `updated`: a rebuilt
non-inline entry whose identifier was configured before and has an
existing provider object. -/
def entryUpdated (oldM : List (String × AccessProvider))
    (existM : List (String × ProviderObj)) (p : AccessProvider) : Option String :=
  let key := providerIdentifier p
  if key = "" then none
  else
    match reuseDecision oldM existM p with
    | some _ => none
    | none =>
      if isInlineProvider key then none
      else
        match assocFind oldM key, assocFind existM key with
        | some _, some _ => some key
        | _, _ => none

/-- The identifier one loop iteration adds to `added`: a rebuilt
non-inline entry that is not counted as updated. -/
def entryAdded (oldM : List (String × AccessProvider))
    (existM : List (String × ProviderObj)) (p : AccessProvider) : Option String :=
  let key := providerIdentifier p
  if key = "" then none
  else
    match reuseDecision oldM existM p with
    | some _ => none
    | none =>
      if isInlineProvider key then none
      else
        match assocFind oldM key, assocFind existM key with
        | some _, some _ => none
        | _, _ => some key

/-- The accumulating state of the reconcile loop. -/
structure LoopState where
  result : List ProviderObj
  finalIDs : List String
  added : List String
  updated : List String
deriving Repr, DecidableEq

/-- One iteration of the reconcile loop over a configured entry,
assembled from the per-entry decision functions above (the branch
structure of the Go loop body): skip an empty identifier, append a
reused object, or run `BuildProvider` — whose failure aborts the whole
reconcile — and record the change. -/
def reconcileStep (registry : List (String × ProviderFactory))
    (oldM : List (String × AccessProvider)) (existM : List (String × ProviderObj))
    (st : LoopState) (p : AccessProvider) : Except BuildError LoopState :=
  if providerIdentifier p = "" then .ok st
  else
    match reuseDecision oldM existM p with
    | some existingProvider =>
      .ok { st with result := st.result ++ [existingProvider]
                    finalIDs := st.finalIDs ++ [providerIdentifier p] }
    | none =>
      match buildProvider registry (some p) with
      | .error e => .error e
      | .ok out =>
        .ok { result := st.result ++ [out]
              finalIDs := st.finalIDs ++ [providerIdentifier p]
              added := st.added ++ (entryAdded oldM existM p).toList
              updated := st.updated ++ (entryUpdated oldM existM p).toList }

/-- The reconcile loop: run the step over the configured entries,
stopping at the first build error (the Go `return` on `buildErr`). -/
def reconcileLoop (registry : List (String × ProviderFactory))
    (oldM : List (String × AccessProvider)) (existM : List (String × ProviderObj)) :
    List AccessProvider → LoopState → Except BuildError LoopState
  | [], st => .ok st
  | p :: ps, st =>
    match reconcileStep registry oldM existM st p with
    | .error e => .error e
    | .ok st' => reconcileLoop registry oldM existM ps st'

/-- Insertion sort for `sort.Strings`. -/
def insertSorted (x : String) : List String → List String
  | [] => [x]
  | y :: ys => if x ≤ y then x :: y :: ys else y :: insertSorted x ys

def sortStrings (l : List String) : List String := l.foldr insertSorted []

/-- `removed`: sorted identifiers of existing providers that are not
in the final set, the inline provider excluded. -/
def removedIDs (existM : List (String × ProviderObj)) (finalIDs : List String) : List String :=
  sortStrings ((existM.map Prod.fst).filter
    (fun id => !finalIDs.contains id && !isInlineProvider id))

def existingMapOf (existing : List ProviderObj) : List (String × ProviderObj) :=
  existing.foldl (fun m p => assocInsert m p.identifier p) []

/-- Propositional equality of `Except` results is decidable; used to
evaluate the reconcile outcomes in concrete witnesses. -/
instance exceptDecidableEq {e a : Type} [DecidableEq e] [DecidableEq a] :
    DecidableEq (Except e a) := fun x y =>
  match x, y with
  | .ok v, .ok w =>
    if h : v = w then .isTrue (by rw [h]) else .isFalse (fun hc => h (Except.ok.inj hc))
  | .error v, .error w =>
    if h : v = w then .isTrue (by rw [h]) else .isFalse (fun hc => h (Except.error.inj hc))
  | .ok _, .error _ => .isFalse (fun hc => Except.noConfusion hc)
  | .error _, .ok _ => .isFalse (fun hc => Except.noConfusion hc)

/-- The result quadruple of `ReconcileProviders`. -/
structure ReconcileResult where
  providers : List ProviderObj
  added : List String
  updated : List String
  removed : List String
deriving Repr, DecidableEq

/-- `ReconcileProviders`: reuse, rebuild or drop providers against the
previous configuration and report the sorted diff; the first
`BuildProvider` failure aborts with that error and no diff (the Go
`nil, nil, nil, nil, buildErr` return). -/
def reconcileProviders (registry : List (String × ProviderFactory))
    (oldCfg newCfg : Option Config) (existing : List ProviderObj) :
    Except BuildError ReconcileResult :=
  match newCfg with
  | none => .ok ⟨[], [], [], []⟩
  | some newCfg =>
    let existM := existingMapOf existing
    let oldM := accessProviderMap oldCfg
    let newEntries := collectProviderEntries newCfg
    match reconcileLoop registry oldM existM newEntries ⟨[], [], [], []⟩ with
    | .error e => .error e
    | .ok st =>
      let finish : LoopState → Except BuildError ReconcileResult := fun st =>
        .ok ⟨st.result, sortStrings st.added, sortStrings st.updated,
          removedIDs existM st.finalIDs⟩
      if st.result.isEmpty then
        match makeInlineAPIKeyProvider newCfg.apiKeys with
        | some inl =>
          let key := providerIdentifier inl
          if key = "" then finish st
          else
            let reuse : Option ProviderObj :=
              match assocFind oldM key with
              | some oldCfgProvider =>
                if providerConfigEqual oldCfgProvider inl then assocFind existM key
                else none
              | none => none
            match reuse with
            | some existingProvider =>
              finish { st with result := st.result ++ [existingProvider],
                               finalIDs := st.finalIDs ++ [key] }
            | none =>
              match buildProvider registry (some inl) with
              | .error e => .error e
              | .ok out =>
                let st :=
                  match assocFind existM key with
                  | some _ => { st with updated := appendChange key st.updated }
                  | none =>
                    match assocFind oldM key with
                    | some _ => { st with updated := appendChange key st.updated }
                    | none => { st with added := appendChange key st.added }
                finish { st with result := st.result ++ [out],
                                 finalIDs := st.finalIDs ++ [key] }
        | none => finish st
      else finish st

/-- A `config-api-key`-typed provider entry whose configuration is
unchanged across a reload — the counterexample input for C5. -/
def c5Provider : AccessProvider :=
  { name := "p1", type := "config-api-key", sdk := "", apiKeys := ["k"], config := [] }

def c5Config : Config := { apiKeys := [], access := ⟨[c5Provider]⟩ }

/-- A non-`config-api-key` provider entry, unchanged across a reload —
the reuse witness input for C5. -/
def c5ReuseProvider : AccessProvider :=
  { name := "ext1", type := "oauth", sdk := "", apiKeys := ["a"], config := [] }

def c5ReuseConfig : Config := { apiKeys := [], access := ⟨[c5ReuseProvider]⟩ }

/-- A configuration with no providers and no inline keys. -/
def c5EmptyConfig : Config := { apiKeys := [], access := ⟨[]⟩ }

/-! ## Theorems -/

@[simp] theorem lookupField_replaceOrAppend_same (fs : List (String × Json)) (k : String) (v : Json) :
    lookupField (replaceOrAppend fs k v) k = some v := by
  induction fs with
  | nil => simp [replaceOrAppend, lookupField]
  | cons hd tl ih =>
    by_cases h : hd.1 = k
    · simp [replaceOrAppend, lookupField, h]
    · simp [replaceOrAppend, lookupField, h, ih]

theorem lookupField_replaceOrAppend_ne (fs : List (String × Json)) (k k' : String) (v : Json)
    (h : k ≠ k') : lookupField (replaceOrAppend fs k v) k' = lookupField fs k' := by
  induction fs with
  | nil => simp [replaceOrAppend, lookupField, h]
  | cons hd tl ih =>
    by_cases hk : hd.1 = k
    · simp [replaceOrAppend, lookupField, hk, h]
    · simp [replaceOrAppend, lookupField, hk, ih]

theorem lookupField_removeField_same (fs : List (String × Json)) (k : String) :
    lookupField (removeField fs k) k = none := by
  induction fs with
  | nil => simp [removeField, lookupField]
  | cons hd tl ih =>
    by_cases h : hd.1 = k
    · simpa [removeField, List.filter, h] using ih
    · simpa [removeField, List.filter, h, lookupField] using ih

theorem lookupField_removeField_ne (fs : List (String × Json)) (k k' : String) (h : k ≠ k') :
    lookupField (removeField fs k) k' = lookupField fs k' := by
  have h' : k' ≠ k := Ne.symm h
  induction fs with
  | nil => simp [removeField, lookupField]
  | cons hd tl ih =>
    by_cases hk : hd.1 = k
    · have hk' : hd.1 ≠ k' := by rw [hk]; exact h
      simp only [removeField, List.filter_cons] at ih ⊢
      simp only [hk, decide_True, Bool.not_true, ne_eq, if_neg, lookupField]
      simp [hk, lookupField, hk', h] at ih ⊢
      exact ih
    · by_cases hq : hd.1 = k'
      · simp [removeField, List.filter, hk, lookupField, hq, h']
      · simp [removeField, List.filter, hk, lookupField, hq, h'] at ih ⊢
        exact ih

/-- Writing a path makes it readable: `jget` after `jset` on the same
path returns the written value. -/
theorem jget_jset_same (p : List String) (j v : Json) :
    jget (jset p j v) p = some v := by
  induction p generalizing j with
  | nil => simp [jset, jget]
  | cons k ps ih => simp [jset, jget, ih]

/-- Writing under one top-level key does not disturb reads under a
different top-level key. -/
theorem jget_jset_ne_top (k k' : String) (ps qs : List String) (j v : Json) (h : k ≠ k') :
    jget (jset (k :: ps) j v) (k' :: qs) = jget j (k' :: qs) := by
  cases j with
  | obj fs =>
    simp only [jset, jfields, jget]
    rw [lookupField_replaceOrAppend_ne _ _ _ _ h]
  | null => simp [jset, jfields, jget, lookupField, replaceOrAppend, h]
  | bool b => simp [jset, jfields, jget, lookupField, replaceOrAppend, h]
  | num n => simp [jset, jfields, jget, lookupField, replaceOrAppend, h]
  | str s => simp [jset, jfields, jget, lookupField, replaceOrAppend, h]
  | arr es => simp [jset, jfields, jget, lookupField, replaceOrAppend, h]

/-- Descending through the shared head of a written path. -/
theorem jget_jset_cons_same (k : String) (ps qs : List String) (j v : Json) :
    jget (jset (k :: ps) j v) (k :: qs) = jget (jset ps (jchild j k) v) qs := by
  simp [jset, jget]

theorem jget_rewriteStep_same (v d : Json) (p : List String) :
    jget (rewriteStep v d p) p = (jget d p).map (fun _ => v) := by
  by_cases h : (jget d p).isSome
  · obtain ⟨w, hw⟩ := Option.isSome_iff_exists.mp h
    simp [rewriteStep, h, jget_jset_same, hw]
  · have hn : jget d p = none := Option.not_isSome_iff_eq_none.mp h
    simp [rewriteStep, hn]

theorem jget_rewriteStep_ne_top (v d : Json) (k' : String) (ps : List String)
    (k : String) (qs : List String) (h : k' ≠ k) :
    jget (rewriteStep v d (k' :: ps)) (k :: qs) = jget d (k :: qs) := by
  by_cases hs : (jget d (k' :: ps)).isSome
  · simp [rewriteStep, hs, jget_jset_ne_top _ _ _ _ _ _ h]
  · simp [rewriteStep, hs]

/-- C2: with a non-empty originally requested model, the response
rewriter sets each of the four known model paths that exists in the
frame to the original model, adds none that is absent (captured by the
`Option.map` form: an existing path maps to the original model, a
missing path stays missing), and in streaming mode applies exactly this
rewrite to the payload of each `data: {…}` line of the chunk while
passing other lines through unchanged. -/
theorem c2_model_rewrite (orig : String) (h : orig ≠ "") (data : Json) (chunk : List SSELine) :
    (∀ p ∈ modelFieldPaths,
        jget (rewriteModelInResponse orig data) p = (jget data p).map (fun _ => Json.str orig))
    ∧ rewriteStreamChunk orig chunk = chunk.map (fun line =>
        match line with
        | .dataObj j => .dataObj (rewriteModelInResponse orig j)
        | .passthrough s => .passthrough s) := by
  constructor
  · intro p hp
    have hfold : rewriteModelInResponse orig data
        = rewriteStep (.str orig) (rewriteStep (.str orig) (rewriteStep (.str orig)
            (rewriteStep (.str orig) data ["model"]) ["modelVersion"])
            ["response", "modelVersion"]) ["message", "model"] := by
      simp [rewriteModelInResponse, h, modelFieldPaths, List.foldl]
    simp only [modelFieldPaths, List.mem_cons, List.not_mem_nil, or_false] at hp
    rcases hp with rfl | rfl | rfl | rfl
    · rw [hfold,
        jget_rewriteStep_ne_top _ _ _ _ _ _ (by decide),
        jget_rewriteStep_ne_top _ _ _ _ _ _ (by decide),
        jget_rewriteStep_ne_top _ _ _ _ _ _ (by decide),
        jget_rewriteStep_same]
    · rw [hfold,
        jget_rewriteStep_ne_top _ _ _ _ _ _ (by decide),
        jget_rewriteStep_ne_top _ _ _ _ _ _ (by decide),
        jget_rewriteStep_same,
        jget_rewriteStep_ne_top _ _ _ _ _ _ (by decide)]
    · rw [hfold,
        jget_rewriteStep_ne_top _ _ _ _ _ _ (by decide),
        jget_rewriteStep_same,
        jget_rewriteStep_ne_top _ _ _ _ _ _ (by decide),
        jget_rewriteStep_ne_top _ _ _ _ _ _ (by decide)]
    · rw [hfold,
        jget_rewriteStep_same,
        jget_rewriteStep_ne_top _ _ _ _ _ _ (by decide),
        jget_rewriteStep_ne_top _ _ _ _ _ _ (by decide),
        jget_rewriteStep_ne_top _ _ _ _ _ _ (by decide)]
  · simp [rewriteStreamChunk, h]

/-- Witness for C2: a concrete non-streaming frame in which `model` and
`message.model` exist and `modelVersion` does not; the rewrite sets the
existing paths to the requested model and does not add the missing one,
and a concrete chunk is rewritten per data line. -/
theorem c2_model_rewrite_witness :
    jget (rewriteModelInResponse "gpt-5(high)"
        (Json.obj [("model", .str "gpt-5"), ("message", .obj [("model", .str "gpt-5")])]))
      ["model"] = some (.str "gpt-5(high)")
    ∧ jget (rewriteModelInResponse "gpt-5(high)"
        (Json.obj [("model", .str "gpt-5"), ("message", .obj [("model", .str "gpt-5")])]))
      ["modelVersion"] = none
    ∧ rewriteStreamChunk "gpt-5(high)" [.dataObj (.obj [("model", .str "gpt-5")]), .passthrough "event: x"]
      = [.dataObj (rewriteModelInResponse "gpt-5(high)" (.obj [("model", .str "gpt-5")])),
         .passthrough "event: x"] := by
  have h := c2_model_rewrite "gpt-5(high)" (by decide)
    (Json.obj [("model", .str "gpt-5"), ("message", .obj [("model", .str "gpt-5")])])
    [.dataObj (.obj [("model", .str "gpt-5")]), .passthrough "event: x"]
  refine ⟨?_, ?_, ?_⟩
  · have h1 := h.1 ["model"] (by simp [modelFieldPaths])
    rw [h1]; rfl
  · have h2 := h.1 ["modelVersion"] (by simp [modelFieldPaths])
    rw [h2]; rfl
  · have h3 := h.2
    rw [h3]; rfl

theorem empty_not_mem_keys (cfgName : String) (raw : List String) :
    "" ∉ (newProvider cfgName raw).keys := by
  simp [newProvider]

theorem find?_isSome_of_match (p : ConfigAPIKeyProvider) (r : HTTPRequest) (v : String)
    (hv : v ∈ (candidates r).map Prod.fst) (hmem : v ∈ p.keys) (hne : "" ∉ p.keys) :
    ((candidates r).find? (fun c => c.1 ≠ "" && p.keys.contains c.1)).isSome := by
  by_contra h
  have hnone : (candidates r).find? (fun c => c.1 ≠ "" && p.keys.contains c.1) = none :=
    Option.not_isSome_iff_eq_none.mp h
  obtain ⟨c, hc, hcv⟩ := List.mem_map.mp hv
  have hfail := List.find?_eq_none.mp hnone c hc
  apply hfail
  have hvne : v ≠ "" := fun contra => hne (contra ▸ hmem)
  simp [hcv, hvne, List.elem_iff, hmem]

/-- C6: the config-api-key provider authenticates a request (outcome
`ok`, carrying the provider identifier and a principal drawn from the
configured keys) exactly when one of the five credential carriers —
bearer token of `Authorization`, `X-Goog-Api-Key`, `X-Api-Key`,
`?key=`, `?auth_token=` — is one of the configured inline API keys. -/
theorem c6_config_api_key_ok_iff (cfgName : String) (raw : List String) (r : HTTPRequest) :
    (∃ principal source,
        (newProvider cfgName raw).authenticate r
          = .ok (newProvider cfgName raw).identifier principal source
        ∧ principal ∈ (newProvider cfgName raw).keys)
    ↔ (extractBearerToken r.authorization ∈ (newProvider cfgName raw).keys
      ∨ r.xGoogApiKey ∈ (newProvider cfgName raw).keys
      ∨ r.xApiKey ∈ (newProvider cfgName raw).keys
      ∨ r.queryKey ∈ (newProvider cfgName raw).keys
      ∨ r.queryAuthToken ∈ (newProvider cfgName raw).keys) := by
  set p := newProvider cfgName raw with hpdef
  have hEmptyKey : "" ∉ p.keys := empty_not_mem_keys cfgName raw
  by_cases hke : p.keys.isEmpty
  · have hnil : p.keys = [] := by simpa [List.isEmpty_iff] using hke
    rw [hnil]
    constructor
    · rintro ⟨pr, src, _, hmem⟩
      simp at hmem
    · intro hmem
      simp at hmem
  · by_cases hnc : r.authorization = "" ∧ r.xGoogApiKey = "" ∧ r.xApiKey = ""
        ∧ r.queryKey = "" ∧ r.queryAuthToken = ""
    · have hauth : p.authenticate r = .errNoCredentials := by
        simp [ConfigAPIKeyProvider.authenticate, hke, hnc]
      obtain ⟨h1, h2, h3, h4, h5⟩ := hnc
      have hextract : extractBearerToken r.authorization = "" := by
        rw [h1]; simp [extractBearerToken]
      constructor
      · rintro ⟨pr, src, hok, _⟩
        rw [hauth] at hok
        exact absurd hok (by simp)
      · intro hmem
        rcases hmem with hm | hm | hm | hm | hm
        · rw [hextract] at hm; exact absurd hm hEmptyKey
        · rw [h2] at hm; exact absurd hm hEmptyKey
        · rw [h3] at hm; exact absurd hm hEmptyKey
        · rw [h4] at hm; exact absurd hm hEmptyKey
        · rw [h5] at hm; exact absurd hm hEmptyKey
    · have hauth : p.authenticate r =
          match (candidates r).find? (fun c => c.1 ≠ "" && p.keys.contains c.1) with
          | some c => .ok p.identifier c.1 c.2
          | none => .errInvalidCredential := by
        simp [ConfigAPIKeyProvider.authenticate, hke, hnc]
      cases hfind : (candidates r).find? (fun c => c.1 ≠ "" && p.keys.contains c.1) with
      | none =>
        rw [hfind] at hauth
        constructor
        · rintro ⟨pr, src, hok, _⟩
          rw [hauth] at hok
          exact absurd hok (by simp)
        · intro hmem
          rcases hmem with hm | hm | hm | hm | hm
          all_goals {
            first
            | exact absurd hfind (by
                have := find?_isSome_of_match p r _ (by simp [candidates]) hm hEmptyKey
                intro hcontra; rw [hcontra] at this; simp at this)
          }
      | some c =>
        rw [hfind] at hauth
        have hpred := List.find?_some hfind
        have hcmem : c ∈ candidates r := List.mem_of_find?_eq_some hfind
        have hckey : c.1 ∈ p.keys := by
          simp only [Bool.and_eq_true, List.elem_iff, decide_eq_true_eq] at hpred
          simpa [List.elem_iff] using hpred.2
        constructor
        · intro _
          rcases (by simpa [candidates] using hcmem :
              c = (extractBearerToken r.authorization, "authorization")
              ∨ c = (r.xGoogApiKey, "x-goog-api-key")
              ∨ c = (r.xApiKey, "x-api-key")
              ∨ c = (r.queryKey, "query-key")
              ∨ c = (r.queryAuthToken, "query-auth-token")) with hc | hc | hc | hc | hc
          · subst hc; exact Or.inl hckey
          · subst hc; exact Or.inr (Or.inl hckey)
          · subst hc; exact Or.inr (Or.inr (Or.inl hckey))
          · subst hc; exact Or.inr (Or.inr (Or.inr (Or.inl hckey)))
          · subst hc; exact Or.inr (Or.inr (Or.inr (Or.inr hckey)))
        · intro _
          exact ⟨c.1, c.2, hauth, hckey⟩

/-- C7: the non-`ok` outcomes of `Authenticate` are distinguished as
declared: `ErrNotHandled` exactly on an empty configured key set,
`ErrNoCredentials` exactly when keys exist but all five carriers are
absent, and `ErrInvalidCredential` exactly when keys exist, some
carrier is present, and no carried value is a configured key. -/
theorem c7_config_api_key_error_outcomes (cfgName : String) (raw : List String) (r : HTTPRequest) :
    ((newProvider cfgName raw).authenticate r = .errNotHandled
      ↔ (newProvider cfgName raw).keys = [])
    ∧ ((newProvider cfgName raw).authenticate r = .errNoCredentials
      ↔ (newProvider cfgName raw).keys ≠ []
        ∧ r.authorization = "" ∧ r.xGoogApiKey = "" ∧ r.xApiKey = ""
        ∧ r.queryKey = "" ∧ r.queryAuthToken = "")
    ∧ ((newProvider cfgName raw).authenticate r = .errInvalidCredential
      ↔ (newProvider cfgName raw).keys ≠ []
        ∧ ¬(r.authorization = "" ∧ r.xGoogApiKey = "" ∧ r.xApiKey = ""
            ∧ r.queryKey = "" ∧ r.queryAuthToken = "")
        ∧ ¬(extractBearerToken r.authorization ∈ (newProvider cfgName raw).keys
            ∨ r.xGoogApiKey ∈ (newProvider cfgName raw).keys
            ∨ r.xApiKey ∈ (newProvider cfgName raw).keys
            ∨ r.queryKey ∈ (newProvider cfgName raw).keys
            ∨ r.queryAuthToken ∈ (newProvider cfgName raw).keys)) := by
  set p := newProvider cfgName raw with hpdef
  have hEmptyKey : "" ∉ p.keys := empty_not_mem_keys cfgName raw
  by_cases hke : p.keys.isEmpty
  · have hnil : p.keys = [] := by simpa [List.isEmpty_iff] using hke
    have hauth : p.authenticate r = .errNotHandled := by
      simp [ConfigAPIKeyProvider.authenticate, hke]
    refine ⟨by simp [hauth, hnil], by simp [hauth, hnil], by simp [hauth, hnil]⟩
  · have hnil : p.keys ≠ [] := by
      intro hcontra
      exact hke (by simp [hcontra])
    by_cases hnc : r.authorization = "" ∧ r.xGoogApiKey = "" ∧ r.xApiKey = ""
        ∧ r.queryKey = "" ∧ r.queryAuthToken = ""
    · have hauth : p.authenticate r = .errNoCredentials := by
        simp [ConfigAPIKeyProvider.authenticate, hke, hnc]
      refine ⟨by simp [hauth, hnil], by simp [hauth, hnil, hnc], by simp [hauth, hnc]⟩
    · have hauth : p.authenticate r =
          match (candidates r).find? (fun c => c.1 ≠ "" && p.keys.contains c.1) with
          | some c => .ok p.identifier c.1 c.2
          | none => .errInvalidCredential := by
        simp [ConfigAPIKeyProvider.authenticate, hke, hnc]
      cases hfind : (candidates r).find? (fun c => c.1 ≠ "" && p.keys.contains c.1) with
      | none =>
        rw [hfind] at hauth
        have hnomatch : ¬(extractBearerToken r.authorization ∈ p.keys
            ∨ r.xGoogApiKey ∈ p.keys ∨ r.xApiKey ∈ p.keys
            ∨ r.queryKey ∈ p.keys ∨ r.queryAuthToken ∈ p.keys) := by
          intro hmem
          rcases hmem with hm | hm | hm | hm | hm
          all_goals {
            have := find?_isSome_of_match p r _ (by simp [candidates]) hm hEmptyKey
            rw [hfind] at this
            simp at this
          }
        exact ⟨by simp [hauth, hnil], by simp [hauth, hnil, hnc],
          by rw [hauth]; exact iff_of_true rfl ⟨hnil, hnc, hnomatch⟩⟩
      | some c =>
        rw [hfind] at hauth
        have hpred := List.find?_some hfind
        have hcmem : c ∈ candidates r := List.mem_of_find?_eq_some hfind
        have hckey : c.1 ∈ p.keys := by
          simp only [Bool.and_eq_true, decide_eq_true_eq] at hpred
          simpa [List.elem_iff] using hpred.2
        have hmatch : extractBearerToken r.authorization ∈ p.keys
            ∨ r.xGoogApiKey ∈ p.keys ∨ r.xApiKey ∈ p.keys
            ∨ r.queryKey ∈ p.keys ∨ r.queryAuthToken ∈ p.keys := by
          rcases (by simpa [candidates] using hcmem :
              c = (extractBearerToken r.authorization, "authorization")
              ∨ c = (r.xGoogApiKey, "x-goog-api-key")
              ∨ c = (r.xApiKey, "x-api-key")
              ∨ c = (r.queryKey, "query-key")
              ∨ c = (r.queryAuthToken, "query-auth-token")) with hc | hc | hc | hc | hc
          · subst hc; exact Or.inl hckey
          · subst hc; exact Or.inr (Or.inl hckey)
          · subst hc; exact Or.inr (Or.inr (Or.inl hckey))
          · subst hc; exact Or.inr (Or.inr (Or.inr (Or.inl hckey)))
          · subst hc; exact Or.inr (Or.inr (Or.inr (Or.inr hckey)))
        refine ⟨by simp [hauth, hnil], by simp [hauth, hnil, hnc], ?_⟩
        simp only [hauth]
        constructor
        · intro hcontra
          exact absurd hcontra (by simp)
        · rintro ⟨_, _, hno⟩
          exact absurd hmatch hno

theorem contains_of_breakAtSpace_some (l : List Char) (a b : List Char)
    (h : breakAtSpace l = some (a, b)) : l.contains ' ' := by
  induction l generalizing a b with
  | nil => simp [breakAtSpace] at h
  | cons c cs ih =>
    by_cases hc : c = ' '
    · simp [List.contains_cons, hc]
    · simp only [breakAtSpace, if_neg hc] at h
      cases hrec : breakAtSpace cs with
      | none => rw [hrec] at h; simp at h
      | some ab =>
        obtain ⟨a', b'⟩ := ab
        rw [hrec] at h
        have := ih a' b' hrec
        simp only [List.contains_cons, Bool.or_eq_true]
        exact Or.inr this

theorem breakAtSpace_fst (l : List Char) (a b : List Char)
    (h : breakAtSpace l = some (a, b)) : a = l.takeWhile (fun c => c ≠ ' ') := by
  induction l generalizing a b with
  | nil => simp [breakAtSpace] at h
  | cons c cs ih =>
    by_cases hc : c = ' '
    · simp only [breakAtSpace, if_pos hc] at h
      obtain ⟨rfl, rfl⟩ := by simpa using h
      simp [List.takeWhile, hc]
    · simp only [breakAtSpace, if_neg hc] at h
      cases hrec : breakAtSpace cs with
      | none => rw [hrec] at h; simp at h
      | some ab =>
        rw [hrec] at h
        obtain ⟨a', b'⟩ := ab
        obtain ⟨rfl, rfl⟩ : c :: a' = a ∧ b' = b := by simpa using h
        have := ih a' b' hrec
        simp [List.takeWhile, hc, this]

/-- C10: an `Authorization` header that is not of the `Bearer <token>`
shape — no space at all, or a first word other than a case-insensitive
`bearer` — is used whole as the candidate key, so a bare API key in
the `Authorization` header authenticates when it is configured. -/
theorem c10_bare_authorization_fallback (cfgName : String) (raw : List String) (header : String)
    (h : ¬ header.data.contains ' '
      ∨ asciiLower ⟨header.data.takeWhile (fun c => c ≠ ' ')⟩ ≠ "bearer") :
    extractBearerToken header = header
    ∧ (header ∈ (newProvider cfgName raw).keys →
        (newProvider cfgName raw).authenticate ⟨header, "", "", "", ""⟩
          = .ok (newProvider cfgName raw).identifier header "authorization") := by
  have hextract : extractBearerToken header = header := by
    by_cases h0 : header = ""
    · rw [h0]; rfl
    · cases hbreak : breakAtSpace header.data with
      | none => simp [extractBearerToken, splitN2, hbreak, h0]
      | some ab =>
        obtain ⟨a, b⟩ := ab
        have hcontains : header.data.contains ' ' := contains_of_breakAtSpace_some _ _ _ hbreak
        have hb : asciiLower ⟨a⟩ ≠ "bearer" := by
          rcases h with hnc | hfw
          · exact absurd hcontains hnc
          · rw [breakAtSpace_fst _ _ _ hbreak]; exact hfw
        simp [extractBearerToken, splitN2, hbreak, h0, hb]
  refine ⟨hextract, fun hmem => ?_⟩
  set p := newProvider cfgName raw with hpdef
  have hne : header ≠ "" := by
    intro hcontra
    exact empty_not_mem_keys cfgName raw (hcontra ▸ hmem)
  have hke : ¬ p.keys.isEmpty := by
    intro hcontra
    rw [List.isEmpty_iff.mp hcontra] at hmem
    simp at hmem
  have hfind : (candidates ⟨header, "", "", "", ""⟩).find?
      (fun c => c.1 ≠ "" && p.keys.contains c.1)
      = some (extractBearerToken header, "authorization") := by
    apply List.find?_cons_of_pos
    simp [hextract, hne, List.elem_iff, hmem]
  have : p.authenticate ⟨header, "", "", "", ""⟩ =
      match (candidates ⟨header, "", "", "", ""⟩).find?
        (fun c => c.1 ≠ "" && p.keys.contains c.1) with
      | some c => .ok p.identifier c.1 c.2
      | none => .errInvalidCredential := by
    simp [ConfigAPIKeyProvider.authenticate, hke, hne]
  rw [this, hfind, hextract]

/-- Witness for C10: the bare key `sk-secret` sent without a `Bearer`
prefix is taken whole and authenticates against a provider configured
with that key. -/
theorem c10_bare_authorization_fallback_witness :
    (¬ ("sk-secret" : String).data.contains ' '
      ∨ asciiLower ⟨("sk-secret" : String).data.takeWhile (fun c => c ≠ ' ')⟩ ≠ "bearer")
    ∧ extractBearerToken "sk-secret" = "sk-secret"
    ∧ (newProvider "" ["sk-secret"]).authenticate ⟨"sk-secret", "", "", "", ""⟩
        = .ok (newProvider "" ["sk-secret"]).identifier "sk-secret" "authorization" := by
  have h := c10_bare_authorization_fallback "" ["sk-secret"] "sk-secret" (Or.inl (by decide))
  exact ⟨Or.inl (by decide), h.1, h.2 (by simp [newProvider])⟩

theorem pickLevel_zero (levels : List (String × Int))
    (hnonneg : ∀ l ∈ levels, 0 ≤ l.2) :
    pickLevel levels 0 = levels.head?.map Prod.fst := by
  match levels with
  | [] => rfl
  | [(n, bud)] => rfl
  | (n, bud) :: l :: rest =>
    have h0 : (0 : Int) ≤ bud := hnonneg (n, bud) (by simp)
    simp [pickLevel, h0]

theorem pickLevel_find (levels : List (String × Int)) (b : Int)
    (hex : ∃ l ∈ levels, b ≤ l.2) :
    pickLevel levels b = (levels.find? (fun l => decide (b ≤ l.2))).map Prod.fst := by
  induction levels with
  | nil => simp at hex
  | cons hd tl ih =>
    obtain ⟨n, bud⟩ := hd
    cases tl with
    | nil =>
      obtain ⟨l, hl, hble⟩ := hex
      simp only [List.mem_singleton] at hl
      subst hl
      simp [pickLevel, List.find?, hble]
    | cons l2 rest2 =>
      by_cases hbud : b ≤ bud
      · simp [pickLevel, List.find?, hbud]
      · have hex' : ∃ l ∈ l2 :: rest2, b ≤ l.2 := by
          obtain ⟨l, hl, hble⟩ := hex
          rcases List.mem_cons.mp hl with rfl | hl'
          · exact absurd hble hbud
          · exact ⟨l, hl', hble⟩
        simp [pickLevel, List.find?, hbud, ih hex']

theorem find?_level_minimal (levels : List (String × Int))
    (hsorted : levels.Pairwise (fun x y => x.2 ≤ y.2)) (b : Int) (l : String × Int)
    (hf : levels.find? (fun l => decide (b ≤ l.2)) = some l) :
    b ≤ l.2 ∧ ∀ l' ∈ levels, b ≤ l'.2 → l.2 ≤ l'.2 := by
  induction levels with
  | nil => simp at hf
  | cons hd tl ih =>
    rw [List.pairwise_cons] at hsorted
    obtain ⟨hhd, htl⟩ := hsorted
    by_cases hp : b ≤ hd.2
    · rw [List.find?_cons_of_pos _ (by simpa using hp)] at hf
      obtain rfl : hd = l := by simpa using hf
      refine ⟨hp, fun l' hl' _ => ?_⟩
      rcases List.mem_cons.mp hl' with rfl | hl''
      · exact le_refl _
      · exact hhd l' hl''
    · rw [List.find?_cons_of_neg _ (by simpa using hp)] at hf
      obtain ⟨hbl, hmin⟩ := ih htl hf
      refine ⟨hbl, fun l' hl' hble => ?_⟩
      rcases List.mem_cons.mp hl' with rfl | hl''
      · exact absurd hble hp
      · exact hmin l' hl'' hble

theorem pickLevel_saturate (levels : List (String × Int)) (b : Int)
    (hall : ∀ l ∈ levels, l.2 < b) :
    pickLevel levels b = levels.getLast?.map Prod.fst := by
  match levels with
  | [] => rfl
  | [(n, bud)] => rfl
  | (n, bud) :: l :: rest =>
    have hbud : ¬ b ≤ bud := not_le.mpr (hall (n, bud) (by simp))
    have ih := pickLevel_saturate (l :: rest) b
      (fun x hx => hall x (List.mem_cons_of_mem _ hx))
    simp only [pickLevel, if_neg hbud, ih, List.getLast?_cons_cons]

/-- C1: projecting a numeric budget onto a levels-table model: a
negative budget maps to `auto` (only the dynamic `-1`) or is dropped;
budget `0` maps to the smallest (first) level; a positive budget maps
to the first — by sortedness the smallest — level whose budget is
`≥ b`; and any budget above every level's budget saturates to the
right-most (highest) level. -/
theorem c1_thinking_budget_to_effort (levels : List (String × Int)) (hne : levels ≠ [])
    (hsorted : levels.Pairwise (fun x y => x.2 ≤ y.2))
    (hnonneg : ∀ l ∈ levels, 0 ≤ l.2) :
    (∀ b : Int, b < 0 →
        thinkingBudgetToEffort levels b = if b = -1 then some "auto" else none)
    ∧ thinkingBudgetToEffort levels 0 = levels.head?.map Prod.fst
    ∧ (∀ b : Int, 0 < b → (∃ l ∈ levels, b ≤ l.2) →
        thinkingBudgetToEffort levels b
          = (levels.find? (fun l => decide (b ≤ l.2))).map Prod.fst
        ∧ ∀ l, levels.find? (fun l => decide (b ≤ l.2)) = some l →
            b ≤ l.2 ∧ ∀ l' ∈ levels, b ≤ l'.2 → l.2 ≤ l'.2)
    ∧ (∀ b : Int, (∀ l ∈ levels, l.2 < b) →
        thinkingBudgetToEffort levels b = levels.getLast?.map Prod.fst) := by
  refine ⟨fun b hb => by simp [thinkingBudgetToEffort, hb], ?_, fun b hb hex => ?_, fun b hall => ?_⟩
  · simpa [thinkingBudgetToEffort] using pickLevel_zero levels hnonneg
  · have hnneg : ¬ b < 0 := not_lt.mpr (le_of_lt hb)
    exact ⟨by simpa [thinkingBudgetToEffort, hnneg] using pickLevel_find levels b hex,
      fun l hf => find?_level_minimal levels hsorted b l hf⟩
  · obtain ⟨l₀, hl₀⟩ : ∃ l, l ∈ levels := by
      cases levels with
      | nil => exact absurd rfl hne
      | cons x xs => exact ⟨x, by simp⟩
    have hbpos : (0 : Int) < b := lt_of_le_of_lt (hnonneg l₀ hl₀) (hall l₀ hl₀)
    have hnneg : ¬ b < 0 := not_lt.mpr (le_of_lt hbpos)
    simpa [thinkingBudgetToEffort, hnneg] using pickLevel_saturate levels b hall

/-- Witness for C1: on the spec's example table, `-1` maps to `auto`,
`-5` is dropped, `0` maps to the smallest level, `3000` to the first
level with budget `≥ 3000`, and `64000` saturates to the highest. -/
theorem c1_thinking_budget_to_effort_witness :
    thinkingBudgetToEffort exampleLevels (-1) = some "auto"
    ∧ thinkingBudgetToEffort exampleLevels (-5) = none
    ∧ thinkingBudgetToEffort exampleLevels 0 = some "minimal"
    ∧ thinkingBudgetToEffort exampleLevels 3000
        = (exampleLevels.find? (fun l => decide ((3000 : Int) ≤ l.2))).map Prod.fst
    ∧ thinkingBudgetToEffort exampleLevels 64000 = some "high" := by
  have h := c1_thinking_budget_to_effort exampleLevels (by decide) (by decide) (by decide)
  refine ⟨?_, ?_, ?_, ?_, ?_⟩
  · rw [h.1 (-1) (by decide)]; rfl
  · rw [h.1 (-5) (by decide)]; rfl
  · rw [h.2.1]; rfl
  · exact (h.2.2.1 3000 (by decide) ⟨("medium", 8192), by decide, by decide⟩).1
  · rw [h.2.2.2 64000 (by decide)]; rfl

/-- C3: with `allowCompat` (OpenAI-compatible upstream, unknown model)
a supplied effort name passes through verbatim and unvalidated; on a
strictly typed upstream an effort outside the level table is a
`thinking_invalid` error, and a valid effort is emitted lowercased. -/
theorem c3_effort_compat_vs_strict (levelNames : List String) (effort : String) :
    projectEffort true levelNames effort = .ok effort
    ∧ (asciiLower (trimString effort) ∉ levelNames →
        projectEffort false levelNames effort = .error .thinkingInvalid)
    ∧ (asciiLower (trimString effort) ∈ levelNames →
        projectEffort false levelNames effort = .ok (asciiLower (trimString effort))) := by
  refine ⟨rfl, fun hnot => ?_, fun hmem => ?_⟩
  · simp [projectEffort, List.elem_iff, hnot]
  · simp [projectEffort, List.elem_iff, hmem]

/-- Witness for C3: on a `{low, medium, high}` table, compat mode
passes `ULTRA` through untouched, strict mode rejects `ultra` with
`thinking_invalid`, and strict mode lowercases the valid `  HIGH `. -/
theorem c3_effort_compat_vs_strict_witness :
    projectEffort true ["low", "medium", "high"] "ULTRA" = .ok "ULTRA"
    ∧ projectEffort false ["low", "medium", "high"] "ultra" = .error .thinkingInvalid
    ∧ projectEffort false ["low", "medium", "high"] "  HIGH " = .ok "high" := by
  have h1 := c3_effort_compat_vs_strict ["low", "medium", "high"] "ULTRA"
  have h2 := c3_effort_compat_vs_strict ["low", "medium", "high"] "ultra"
  have h3 := c3_effort_compat_vs_strict ["low", "medium", "high"] "  HIGH "
  refine ⟨h1.1, h2.2.1 (by decide), ?_⟩
  rw [h3.2.2 (by decide)]; rfl

theorem jget_jdel_same_path (pre : List String) (a : String) (j : Json) :
    jget (jdel (pre ++ [a]) j) (pre ++ [a]) = none := by
  induction pre generalizing j with
  | nil =>
    cases j with
    | obj fs =>
      simp only [List.nil_append, jdel]
      cases hl : lookupField fs a with
      | none => simp [jget, hl]
      | some v => simp [jget, lookupField_removeField_same]
    | null => simp [jdel, jget]
    | bool b => simp [jdel, jget]
    | num n => simp [jdel, jget]
    | str s => simp [jdel, jget]
    | arr es => simp [jdel, jget]
  | cons k pre ih =>
    cases j with
    | obj fs =>
      simp only [List.cons_append, jdel]
      cases hl : lookupField fs k with
      | none => simp [jget, hl]
      | some v =>
        have hne : (pre ++ [a]).isEmpty = false := by simp
        simp [jget, hne, lookupField_replaceOrAppend_same, ih]
    | null => simp [jdel, jget]
    | bool b => simp [jdel, jget]
    | num n => simp [jdel, jget]
    | str s => simp [jdel, jget]
    | arr es => simp [jdel, jget]

theorem jget_jdel_diverge (pre : List String) (a b : String) (hab : a ≠ b) (j : Json) :
    jget (jdel (pre ++ [a]) j) (pre ++ [b]) = jget j (pre ++ [b]) := by
  induction pre generalizing j with
  | nil =>
    cases j with
    | obj fs =>
      simp only [List.nil_append, jdel]
      cases hl : lookupField fs a with
      | none => rfl
      | some v => simp [jget, lookupField_removeField_ne _ _ _ hab]
    | null => rfl
    | bool bb => rfl
    | num n => rfl
    | str s => rfl
    | arr es => rfl
  | cons k pre ih =>
    cases j with
    | obj fs =>
      simp only [List.cons_append, jdel]
      cases hl : lookupField fs k with
      | none => rfl
      | some v =>
        have hne : (pre ++ [a]).isEmpty = false := by simp
        simp [jget, hne, lookupField_replaceOrAppend_same, hl, ih]
    | null => rfl
    | bool bb => rfl
    | num n => rfl
    | str s => rfl
    | arr es => rfl

theorem leadsWith_of_common (p q l : List Char) (hp : leadsWith p l = true)
    (hq : leadsWith q l = true) (hlen : p.length ≤ q.length) : leadsWith p q = true := by
  induction p generalizing q l with
  | nil => rfl
  | cons a as ih =>
    cases q with
    | nil => simp at hlen
    | cons b bs =>
      cases l with
      | nil => simp [leadsWith] at hp
      | cons c cs =>
        simp only [leadsWith, Bool.and_eq_true, decide_eq_true_eq] at hp hq ⊢
        exact ⟨hp.1.trans hq.1.symm, ih bs cs hp.2 hq.2 (by simpa using hlen)⟩

theorem not_pro_of_flash (m : String) (h : isGemini3FlashModel m = true) :
    isGemini3ProModel m = false := by
  by_contra hcontra
  have hpro : isGemini3ProModel m = true := by
    cases hv : isGemini3ProModel m
    · exact absurd hv hcontra
    · rfl
  have := leadsWith_of_common "gemini-3-pro".data "gemini-3-flash".data
    (normalizeModelId m).data hpro h (by decide)
  revert this
  decide

/-- C4: Gemini 3 thinking is projected as a named level: for a Gemini 3
model whose body carries a numeric `thinkingBudget`, the normaliser
writes the model-specific threshold level into `thinkingLevel` and
removes `thinkingBudget`; Gemini 3 Pro only ever produces and accepts
the levels `{low, high}` and Gemini 3 Flash the levels
`{minimal, low, medium, high}`; non-Gemini-3 models are left with
their numeric budget untouched. -/
theorem c4_gemini3_thinking_level (m : String) :
    (∀ body b lvl, isGemini3Model m = true →
        jget body geminiBudgetPath = some (.num b) →
        thinkingBudgetToGemini3Level m b = some lvl →
        jget (normalizeGeminiThinkingBudget m body) geminiLevelPath = some (.str lvl)
        ∧ jget (normalizeGeminiThinkingBudget m body) geminiBudgetPath = none)
    ∧ (isGemini3ProModel m = true → ∀ b : Int, ∃ lvl ∈ gemini3ProLevels,
        thinkingBudgetToGemini3Level m b = some lvl)
    ∧ (isGemini3FlashModel m = true → ∀ b : Int, ∃ lvl ∈ gemini3FlashLevels,
        thinkingBudgetToGemini3Level m b = some lvl)
    ∧ (isGemini3ProModel m = true → ∀ s,
        validateGemini3ThinkingLevel m s
          = if asciiLower s ∈ gemini3ProLevels then some (asciiLower s) else none)
    ∧ (isGemini3FlashModel m = true → ∀ s,
        validateGemini3ThinkingLevel m s
          = if asciiLower s ∈ gemini3FlashLevels then some (asciiLower s) else none)
    ∧ (isGemini3Model m = false → ∀ body, normalizeGeminiThinkingBudget m body = body) := by
  refine ⟨?_, ?_, ?_, ?_, ?_, ?_⟩
  · intro body b lvl hG3 hbudget hlvl
    have hbp : geminiBudgetPath
        = ["generationConfig", "thinkingConfig"] ++ ["thinkingBudget"] := rfl
    have hlp : geminiLevelPath
        = ["generationConfig", "thinkingConfig"] ++ ["thinkingLevel"] := rfl
    have hnorm : normalizeGeminiThinkingBudget m body
        = jdel geminiBudgetPath (jset geminiLevelPath body (.str lvl)) := by
      simp [normalizeGeminiThinkingBudget, hG3, hbudget, hlvl]
    constructor
    · rw [hnorm, hbp, hlp, jget_jdel_diverge _ _ _ (by decide), ← hlp, jget_jset_same]
    · rw [hnorm, hbp, jget_jdel_same_path]
  · intro hpro b
    simp only [thinkingBudgetToGemini3Level, hpro, if_true]
    split_ifs <;> exact ⟨_, by decide, rfl⟩
  · intro hflash b
    have hpro := not_pro_of_flash m hflash
    simp only [thinkingBudgetToGemini3Level, hpro, hflash]
    split_ifs <;> exact ⟨_, by decide, rfl⟩
  · intro hpro s
    by_cases hmem : asciiLower s ∈ gemini3ProLevels
    · simp [validateGemini3ThinkingLevel, hpro, hmem, List.elem_iff]
    · simp [validateGemini3ThinkingLevel, hpro, hmem, List.elem_iff]
  · intro hflash s
    have hpro := not_pro_of_flash m hflash
    by_cases hmem : asciiLower s ∈ gemini3FlashLevels
    · simp [validateGemini3ThinkingLevel, hpro, hflash, hmem, List.elem_iff]
    · simp [validateGemini3ThinkingLevel, hpro, hflash, hmem, List.elem_iff]
  · intro hnot body
    simp [normalizeGeminiThinkingBudget, hnot]

/-- Witness for C4: a Gemini 3 Flash body with budget `8000` gains
`thinkingLevel: "medium"` and loses `thinkingBudget`; the same body on
`gemini-2.5-pro` is untouched; and the Pro validator accepts `HIGH`
but not `medium`. -/
theorem c4_gemini3_thinking_level_witness :
    jget (normalizeGeminiThinkingBudget "gemini-3-flash-preview"
        (Json.obj [("generationConfig", .obj [("thinkingConfig",
          .obj [("thinkingBudget", .num 8000)])])]))
      geminiLevelPath = some (.str "medium")
    ∧ jget (normalizeGeminiThinkingBudget "gemini-3-flash-preview"
        (Json.obj [("generationConfig", .obj [("thinkingConfig",
          .obj [("thinkingBudget", .num 8000)])])]))
      geminiBudgetPath = none
    ∧ normalizeGeminiThinkingBudget "gemini-2.5-pro"
        (Json.obj [("generationConfig", .obj [("thinkingConfig",
          .obj [("thinkingBudget", .num 8000)])])])
      = Json.obj [("generationConfig", .obj [("thinkingConfig",
          .obj [("thinkingBudget", .num 8000)])])]
    ∧ validateGemini3ThinkingLevel "gemini-3-pro-preview" "HIGH" = some "high"
    ∧ validateGemini3ThinkingLevel "gemini-3-pro-preview" "medium" = none := by
  have hflash := c4_gemini3_thinking_level "gemini-3-flash-preview"
  have h25 := c4_gemini3_thinking_level "gemini-2.5-pro"
  have hpro := c4_gemini3_thinking_level "gemini-3-pro-preview"
  have hmain := hflash.1
    (Json.obj [("generationConfig", .obj [("thinkingConfig",
      .obj [("thinkingBudget", .num 8000)])])])
    8000 "medium" (by decide) rfl (by decide)
  refine ⟨hmain.1, hmain.2, h25.2.2.2.2.2 (by decide) _, ?_, ?_⟩
  · rw [hpro.2.2.2.1 (by decide) "HIGH"]; rfl
  · rw [hpro.2.2.2.1 (by decide) "medium"]; rfl

theorem mem_addUnique (acc ks : List String) (k : String) :
    k ∈ addUnique acc ks ↔ k ∈ acc ∨ k ∈ ks := by
  induction ks generalizing acc with
  | nil => simp [addUnique]
  | cons a as ih =>
    show k ∈ addUnique (if a ∈ acc then acc else acc ++ [a]) as ↔ _
    by_cases ha : a ∈ acc
    · rw [if_pos ha, ih]
      constructor
      · rintro (h | h)
        · exact Or.inl h
        · exact Or.inr (List.mem_cons_of_mem _ h)
      · rintro (h | h)
        · exact Or.inl h
        · rcases List.mem_cons.mp h with rfl | h'
          · exact Or.inl ha
          · exact Or.inr h'
    · rw [if_neg ha, ih]
      simp [List.mem_append, or_assoc]

theorem nodup_addUnique (acc ks : List String) (h : acc.Nodup) :
    (addUnique acc ks).Nodup := by
  induction ks generalizing acc with
  | nil => simpa [addUnique] using h
  | cons a as ih =>
    show (addUnique (if a ∈ acc then acc else acc ++ [a]) as).Nodup
    by_cases ha : a ∈ acc
    · rw [if_pos ha]; exact ih acc h
    · rw [if_neg ha]
      refine ih _ ?_
      simp [List.nodup_append, h, ha]

/-- C8: loading a file with the legacy field names yields new-style
fields carrying the legacy values — legacy Gemini keys join the
`gemini-api-key` entries and legacy nested `api-keys` join the
provider's `api-key-entries`, deduplicated when both forms name the
same key; the legacy amp fields populate the `ampcode` block when it
does not set them; and the rewritten file carries no legacy field. -/
theorem c8_legacy_config_migration (f : ConfigFile) :
    (∀ k, k ∈ (migrateConfigFile f).geminiApiKey
        ↔ (k ∈ f.geminiApiKey ∨ k ∈ f.generativeLanguageApiKey))
    ∧ (f.geminiApiKey.Nodup → (migrateConfigFile f).geminiApiKey.Nodup)
    ∧ (migrateConfigFile f).openaiCompatibility
        = f.openaiCompatibility.map migrateOpenAICompatEntry
    ∧ (∀ e : OpenAICompatEntry, ∀ k, k ∈ (migrateOpenAICompatEntry e).apiKeyEntries
        ↔ (k ∈ e.apiKeyEntries ∨ k ∈ e.legacyAPIKeys))
    ∧ (∀ e : OpenAICompatEntry, e.apiKeyEntries.Nodup →
        (migrateOpenAICompatEntry e).apiKeyEntries.Nodup)
    ∧ (f.ampcode.upstreamUrl = "" → ∀ u, f.ampUpstreamUrl = some u →
        (migrateConfigFile f).ampcode.upstreamUrl = u)
    ∧ (f.ampcode.restrictManagementToLocalhost = none →
        (migrateConfigFile f).ampcode.restrictManagementToLocalhost
          = f.ampRestrictManagementToLocalhost)
    ∧ (migrateConfigFile f).generativeLanguageApiKey = []
    ∧ (migrateConfigFile f).ampUpstreamUrl = none
    ∧ (migrateConfigFile f).ampRestrictManagementToLocalhost = none
    ∧ (∀ e ∈ (migrateConfigFile f).openaiCompatibility, e.legacyAPIKeys = []) := by
  refine ⟨fun k => mem_addUnique _ _ k, fun h => nodup_addUnique _ _ h, rfl,
    fun e k => mem_addUnique _ _ k, fun e h => nodup_addUnique _ _ h,
    fun hempty u hu => by simp [migrateConfigFile, hempty, hu],
    fun hnone => by simp [migrateConfigFile, hnone], rfl, rfl, rfl, ?_⟩
  intro e he
  simp only [migrateConfigFile, List.mem_map] at he
  obtain ⟨e', _, rfl⟩ := he
  rfl

/-- Witness for C8: the migration test's mixed legacy/new file — both
key lists merged and deduplicated, the legacy amp values carried into
`ampcode`, and every legacy field cleared from the rewritten file. -/
theorem c8_legacy_config_migration_witness :
    migrateConfigFile exampleLegacyFile =
      { geminiApiKey := ["new-gemini", "legacy-gemini-only"]
        generativeLanguageApiKey := []
        openaiCompatibility :=
          [⟨"mixed-provider", "https://mixed.example.com", ["new-entry", "legacy-entry"], []⟩]
        ampcode := ⟨"https://amp.example.com", "", some false⟩
        ampUpstreamUrl := none
        ampRestrictManagementToLocalhost := none }
    ∧ (migrateConfigFile exampleLegacyFile).ampcode.upstreamUrl = "https://amp.example.com"
    ∧ (migrateConfigFile exampleLegacyFile).ampcode.restrictManagementToLocalhost
        = exampleLegacyFile.ampRestrictManagementToLocalhost
    ∧ (migrateConfigFile exampleLegacyFile).geminiApiKey.Nodup := by
  have h := c8_legacy_config_migration exampleLegacyFile
  exact ⟨by decide,
    h.2.2.2.2.2.1 (by decide) "https://amp.example.com" (by decide),
    h.2.2.2.2.2.2.1 (by decide),
    h.2.1 (by decide)⟩

theorem reconcileStep_ok (registry : List (String × ProviderFactory))
    (oldM : List (String × AccessProvider)) (existM : List (String × ProviderObj))
    (st : LoopState) (p : AccessProvider)
    (hok : providerIdentifier p ≠ "" → reuseDecision oldM existM p = none →
        buildProvider registry (some p) = .ok (.built p)) :
    reconcileStep registry oldM existM st p = .ok
      { result := st.result ++ (entryOutput oldM existM p).toList
        finalIDs := st.finalIDs
          ++ (if providerIdentifier p = "" then [] else [providerIdentifier p])
        added := st.added ++ (entryAdded oldM existM p).toList
        updated := st.updated ++ (entryUpdated oldM existM p).toList } := by
  obtain ⟨r, f, a, u⟩ := st
  by_cases hk : providerIdentifier p = ""
  · simp [reconcileStep, hk, entryOutput, entryAdded, entryUpdated]
  · cases hre : reuseDecision oldM existM p with
    | some e =>
      have hadd : entryAdded oldM existM p = none := by simp [entryAdded, hk, hre]
      have hupd : entryUpdated oldM existM p = none := by simp [entryUpdated, hk, hre]
      simp [reconcileStep, hk, hre, entryOutput, hadd, hupd]
    | none =>
      have hb := hok hk hre
      simp [reconcileStep, hk, hre, hb, entryOutput]

theorem reconcileLoop_spec (registry : List (String × ProviderFactory))
    (oldM : List (String × AccessProvider)) (existM : List (String × ProviderObj))
    (entries : List AccessProvider) (st : LoopState) :
    (∀ p ∈ entries, providerIdentifier p ≠ "" → reuseDecision oldM existM p = none →
        buildProvider registry (some p) = .ok (.built p)) →
    reconcileLoop registry oldM existM entries st = .ok
      { result := st.result ++ entries.filterMap (entryOutput oldM existM)
        finalIDs := st.finalIDs ++ entries.filterMap
          (fun p => if providerIdentifier p = "" then none else some (providerIdentifier p))
        added := st.added ++ entries.filterMap (entryAdded oldM existM)
        updated := st.updated ++ entries.filterMap (entryUpdated oldM existM) } := by
  induction entries generalizing st with
  | nil => intro _; cases st; simp [reconcileLoop]
  | cons p ps ih =>
    intro hok
    have hstep := reconcileStep_ok registry oldM existM st p (hok p (by simp))
    simp only [reconcileLoop, hstep]
    rw [ih _ (fun q hq h1 h2 => hok q (List.mem_cons_of_mem _ hq) h1 h2)]
    by_cases hk : providerIdentifier p = ""
    · have hout : entryOutput oldM existM p = none := by simp [entryOutput, hk]
      have hadd : entryAdded oldM existM p = none := by simp [entryAdded, hk]
      have hupd : entryUpdated oldM existM p = none := by simp [entryUpdated, hk]
      simp [List.filterMap_cons, hout, hadd, hupd, hk]
    · have hout : entryOutput oldM existM p
          = some ((reuseDecision oldM existM p).getD (.built p)) := by
        simp [entryOutput, hk]
      cases hadd : entryAdded oldM existM p <;> cases hupd : entryUpdated oldM existM p <;>
        simp [List.filterMap_cons, hout, hadd, hupd, hk, List.append_assoc]

theorem reconcileLoop_append (registry : List (String × ProviderFactory))
    (oldM : List (String × AccessProvider)) (existM : List (String × ProviderObj))
    (as bs : List AccessProvider) (st : LoopState) :
    reconcileLoop registry oldM existM (as ++ bs) st
      = match reconcileLoop registry oldM existM as st with
        | .error e => .error e
        | .ok st' => reconcileLoop registry oldM existM bs st' := by
  induction as generalizing st with
  | nil => simp [reconcileLoop]
  | cons p ps ih =>
    simp only [List.cons_append, reconcileLoop]
    cases reconcileStep registry oldM existM st p with
    | error e => rfl
    | ok st' => exact ih st'

/-- `providerIdentifier` reads only the name and type fields. -/
theorem providerIdentifier_fields (n t s : String) (ks : List String)
    (c : List (String × String)) :
    providerIdentifier ⟨n, t, s, ks, c⟩ = providerIdentifier ⟨n, t, "", [], []⟩ := rfl

theorem collect_key_ne (cfg : Config) (p : AccessProvider)
    (hp : p ∈ collectProviderEntries cfg) : providerIdentifier p ≠ "" := by
  simp only [collectProviderEntries] at hp
  by_cases hcond : (cfg.access.providers.filter
      (fun p => p.type != "" && providerIdentifier p != "")).isEmpty && !cfg.apiKeys.isEmpty
  · rw [if_pos hcond] at hp
    have hapi : cfg.apiKeys.isEmpty = false := by
      rcases Bool.and_eq_true _ _ |>.mp hcond with ⟨_, hr⟩
      simpa using hr
    simp only [makeInlineAPIKeyProvider, hapi, Bool.false_eq_true, if_false] at hp
    rcases List.mem_singleton.mp hp with rfl
    rw [providerIdentifier_fields]
    decide
  · rw [if_neg hcond] at hp
    have := List.mem_filter.mp hp
    have hbne := (Bool.and_eq_true _ _).mp this.2 |>.2
    simpa using hbne

theorem filterMap_keys_of_ne (entries : List AccessProvider)
    (h : ∀ p ∈ entries, providerIdentifier p ≠ "") :
    entries.filterMap
        (fun p => if providerIdentifier p = "" then none else some (providerIdentifier p))
      = entries.map providerIdentifier := by
  induction entries with
  | nil => rfl
  | cons p ps ih =>
    have hp := h p (by simp)
    rw [List.filterMap_cons, List.map_cons, if_neg hp,
      ih (fun q hq => h q (List.mem_cons_of_mem _ hq))]

theorem entryOutput_of_key_ne (oldM : List (String × AccessProvider))
    (existM : List (String × ProviderObj)) (entries : List AccessProvider)
    (h : ∀ p ∈ entries, providerIdentifier p ≠ "") :
    entries.filterMap (entryOutput oldM existM)
      = entries.map (fun p => (reuseDecision oldM existM p).getD (.built p)) := by
  induction entries with
  | nil => rfl
  | cons p ps ih =>
    have hp := h p (by simp)
    rw [List.filterMap_cons, List.map_cons]
    simp only [entryOutput, if_neg hp]
    rw [ih (fun q hq => h q (List.mem_cons_of_mem _ hq))]

/-- Counterexample for C5: across a reload with byte-identical
configuration — the same `Config` value on both sides — a provider of
type `config-api-key` is *not* reused: the loop's `forceRebuild` path
rebuilds it and even reports it as updated, refuting the claim that
byte-identical `{type, config, apiKeys}` providers are reused exactly
with an empty diff. -/
theorem c5_counterexample_force_rebuild :
    reconcileProviders defaultRegistry (some c5Config) (some c5Config) [.preexisting "p1"]
      ≠ .ok ⟨[ProviderObj.preexisting "p1"], [], [], []⟩
    ∧ reconcileProviders defaultRegistry (some c5Config) (some c5Config) [.preexisting "p1"]
      = .ok ⟨[ProviderObj.built c5Provider], [], ["p1"], []⟩ := by
  constructor
  · intro hcontra
    have heval : reconcileProviders defaultRegistry (some c5Config) (some c5Config)
        [.preexisting "p1"] = .ok ⟨[ProviderObj.built c5Provider], [], ["p1"], []⟩ := by decide
    rw [heval] at hcontra
    have := Except.ok.inj hcontra
    simp at this
  · decide

/-- C5 (amended): on reload, a configured provider is reused exactly
when its type is not `config-api-key` (those are always rebuilt), the
previous configuration under the same identifier compares equal under
`providerConfigEqual` — type case-insensitively trimmed, sdk trimmed,
api-keys as multisets, config as a map, rather than byte-identical —
and a provider object with that identifier exists; every other
configured provider is rebuilt through `BuildProvider`, whose first
failure (nil config, unregistered type, or factory error) aborts the
reconcile with that error and no diff; when every needed build
succeeds, existing providers whose identifier is no longer configured
are dropped and the diff is reported as the three sorted identifier
lists (added, updated, removed) with the inline provider excluded. -/
theorem c5_amended_reconcile_providers (registry : List (String × ProviderFactory))
    (oldCfg newCfg : Config) (existing : List ProviderObj)
    (hne : collectProviderEntries newCfg ≠ []) :
    ((∀ p ∈ collectProviderEntries newCfg, providerIdentifier p ≠ "" →
        reuseDecision (accessProviderMap (some oldCfg)) (existingMapOf existing) p = none →
        buildProvider registry (some p) = .ok (.built p)) →
      reconcileProviders registry (some oldCfg) (some newCfg) existing = .ok
        ⟨(collectProviderEntries newCfg).map
            (fun p => (reuseDecision (accessProviderMap (some oldCfg))
              (existingMapOf existing) p).getD (.built p)),
          sortStrings ((collectProviderEntries newCfg).filterMap
            (entryAdded (accessProviderMap (some oldCfg)) (existingMapOf existing))),
          sortStrings ((collectProviderEntries newCfg).filterMap
            (entryUpdated (accessProviderMap (some oldCfg)) (existingMapOf existing))),
          sortStrings (((existingMapOf existing).map Prod.fst).filter
            (fun id => !((collectProviderEntries newCfg).map providerIdentifier).contains id
              && !isInlineProvider id))⟩)
    ∧ (∀ pre p rest err, collectProviderEntries newCfg = pre ++ p :: rest →
        (∀ q ∈ pre, providerIdentifier q ≠ "" →
            reuseDecision (accessProviderMap (some oldCfg)) (existingMapOf existing) q = none →
            buildProvider registry (some q) = .ok (.built q)) →
        providerIdentifier p ≠ "" →
        reuseDecision (accessProviderMap (some oldCfg)) (existingMapOf existing) p = none →
        buildProvider registry (some p) = .error err →
        reconcileProviders registry (some oldCfg) (some newCfg) existing = .error err)
    ∧ (∀ p ∈ collectProviderEntries newCfg, ∀ e : ProviderObj,
        reuseDecision (accessProviderMap (some oldCfg)) (existingMapOf existing) p = some e
        ↔ (eqFold (trimString p.type) accessProviderTypeConfigAPIKey = false
            ∧ ∃ old, assocFind (accessProviderMap (some oldCfg)) (providerIdentifier p) = some old
              ∧ providerConfigEqual old p = true
              ∧ assocFind (existingMapOf existing) (providerIdentifier p) = some e)) := by
  have hkeys : ∀ p ∈ collectProviderEntries newCfg, providerIdentifier p ≠ "" :=
    fun p hp => collect_key_ne newCfg p hp
  refine ⟨?_, ?_, ?_⟩
  · intro hbuild
    have hloop := reconcileLoop_spec registry (accessProviderMap (some oldCfg))
      (existingMapOf existing) (collectProviderEntries newCfg) ⟨[], [], [], []⟩ hbuild
    have hout := entryOutput_of_key_ne (accessProviderMap (some oldCfg))
      (existingMapOf existing) (collectProviderEntries newCfg) hkeys
    have hids := filterMap_keys_of_ne (collectProviderEntries newCfg) hkeys
    have hresne : ((collectProviderEntries newCfg).map
        (fun p => (reuseDecision (accessProviderMap (some oldCfg))
          (existingMapOf existing) p).getD (.built p))) ≠ [] := by
      intro hcontra
      exact hne (List.map_eq_nil_iff.mp hcontra)
    simp only [reconcileProviders, hloop, List.nil_append, hout, hids]
    rw [if_neg (by simpa [List.isEmpty_iff] using hresne)]
    rfl
  · intro pre p rest err hsplit hpre hk hre herr
    have hloopPre := reconcileLoop_spec registry (accessProviderMap (some oldCfg))
      (existingMapOf existing) pre ⟨[], [], [], []⟩ hpre
    have hstep : ∀ st : LoopState, reconcileStep registry (accessProviderMap (some oldCfg))
        (existingMapOf existing) st p = .error err := by
      intro st
      simp [reconcileStep, hk, hre, herr]
    have hloopAll : reconcileLoop registry (accessProviderMap (some oldCfg))
        (existingMapOf existing) (collectProviderEntries newCfg) ⟨[], [], [], []⟩
        = .error err := by
      rw [hsplit, reconcileLoop_append, hloopPre]
      simp only [reconcileLoop, hstep]
    simp only [reconcileProviders, hloopAll]
  · intro p _ e
    constructor
    · intro hre
      unfold reuseDecision at hre
      split at hre
      · rename_i old hold
        split at hre
        · rename_i hcond
          exact ⟨hcond.1, old, hold, hcond.2, hre⟩
        · exact absurd hre (by simp)
      · exact absurd hre (by simp)
    · rintro ⟨hf, old, hold, hpce, hfe⟩
      unfold reuseDecision
      simp only [hold]
      rw [if_pos ⟨hf, hpce⟩]
      exact hfe

/-- Witness for C5's amended claim: an unchanged `oauth`-typed
provider is reused across a reload with an empty diff, and on a reload
where the same entry must be rebuilt, its unregistered type aborts the
reconcile with the build error. -/
theorem c5_amended_reconcile_providers_witness :
    reconcileProviders defaultRegistry (some c5ReuseConfig) (some c5ReuseConfig)
        [.preexisting "ext1"]
      = .ok ⟨[ProviderObj.preexisting "ext1"], [], [], []⟩
    ∧ reconcileProviders defaultRegistry (some c5EmptyConfig) (some c5ReuseConfig) []
      = .error (.typeNotRegistered "oauth") := by
  have h := c5_amended_reconcile_providers defaultRegistry c5ReuseConfig c5ReuseConfig
    [.preexisting "ext1"] (by decide)
  have herr := c5_amended_reconcile_providers defaultRegistry c5EmptyConfig c5ReuseConfig
    [] (by decide)
  constructor
  · rw [h.1 (by decide)]; decide
  · exact herr.2.1 [] c5ReuseProvider [] (.typeNotRegistered "oauth") (by decide)
      (fun q hq => absurd hq (List.not_mem_nil q)) (by decide) (by decide) (by decide)

/-- C9: the OpenAI-Responses→Antigravity request edge is the function
composition of the OpenAI-Responses→Gemini translator followed by the
Gemini→Antigravity translator, for every model name, input JSON and
stream flag. -/
theorem c9_composite_edge_is_composition
    (convertOpenAIResponsesRequestToGemini : String → List UInt8 → Bool → List UInt8)
    (convertGeminiRequestToAntigravity : String → List UInt8 → Bool → List UInt8)
    (modelName : String) (inputRawJSON : List UInt8) (stream : Bool) :
    ConvertOpenAIResponsesRequestToAntigravity
      convertOpenAIResponsesRequestToGemini convertGeminiRequestToAntigravity
      modelName inputRawJSON stream
    = convertGeminiRequestToAntigravity modelName
        (convertOpenAIResponsesRequestToGemini modelName inputRawJSON stream) stream := rfl

end CLIProxy
